import Mathlib

/-!
Shallow embedding of the gvray/logger structured-logging library
(src/src/utils.ts `Logger`, src/src/middleware.ts, src/unnamed/part_000
`LogLevel` and types).

Modelling conventions:
* JS numbers used as levels are `Nat` (the `LogLevel` enum is 0..6).
* `Date` values are epoch instants, modelled as `Nat`; `Date.now()` becomes an
  explicit `now` parameter of each log call.
* Log arguments (`unknown[]`) are modelled by `LogArg`: a string, or an opaque
  non-string value `other n`.  Rendering of non-string values is the external
  inspection collaborator (excluded by the spec) and is modelled as the fixed
  token `[Object]`; no claim depends on it.
* A middleware stage `(ctx, next) => ...` is modelled by `Stage`: a transform
  of the mutable context fields a stage may reassign per the mutation contract
  (`args` and `formattedMessage`), plus a `Control` describing what the stage
  does with its zero-argument continuation: call it and return normally, never
  call it, throw without calling it, or call it and then throw.
* Exceptions thrown by stages never escape `logWithMiddleware` (each stage
  invocation is wrapped in try/catch in the source); the catch's
  `console.error('Middleware error:', err)` report is counted in the
  `mwErrors` field of a run's result, separately from the emission-gate output
  recorded in `emissions`.
* Listener identity (the `l !== listener` test in `removeListener`) is
  modelled by the `id` field of `Listener`.  A listener's observable effect on
  the logger during fan-out is the set of listener ids it removes.
-/

/-- Level ordinal for TRACE (src/unnamed/part_000, `LogLevel.TRACE = 0`). -/
def LogLevel.TRACE : Nat := 0

/-- Level ordinal for DEBUG (`LogLevel.DEBUG = 1`). -/
def LogLevel.DEBUG : Nat := 1

/-- Level ordinal for INFO (`LogLevel.INFO = 2`). -/
def LogLevel.INFO : Nat := 2

/-- Level ordinal for WARNING (`LogLevel.WARNING = 3`). -/
def LogLevel.WARNING : Nat := 3

/-- Level ordinal for ERROR (`LogLevel.ERROR = 4`). -/
def LogLevel.ERROR : Nat := 4

/-- Level ordinal for FATAL (`LogLevel.FATAL = 5`). -/
def LogLevel.FATAL : Nat := 5

/-- Level ordinal for the SILENT sentinel (`LogLevel.SILENT = 6`). -/
def LogLevel.SILENT : Nat := 6

/-- Reverse enum mapping `LogLevel[level]` used for `ctx.levelName`. -/
def levelNameOf : Nat → String
  | 0 => "TRACE"
  | 1 => "DEBUG"
  | 2 => "INFO"
  | 3 => "WARNING"
  | 4 => "ERROR"
  | 5 => "FATAL"
  | 6 => "SILENT"
  | _ => "undefined"

/-- A log-call argument (`unknown`): a string, or an opaque non-string value. -/
inductive LogArg where
  | str (s : String)
  | other (n : Nat)
deriving DecidableEq

/-- The three console output channels used by `Logger.output`:
`console.error`, `console.warn`, `console.log`. -/
inductive Channel where
  | error
  | warn
  | log
deriving DecidableEq

/-- One write performed by the emission gate: channel plus resolved text. -/
structure Emission where
  channel : Channel
  message : String
deriving DecidableEq

/-- A registered listener.  `id` models JS object identity; `removeIds` is the
set of listener ids this listener removes (via `removeListener`) when it is
invoked, modelling a listener that mutates the logger during fan-out. -/
structure Listener where
  id : Nat
  removeIds : List Nat
deriving DecidableEq

/-- `TimestampFormat` from src/unnamed/part_000: a fixed mode or a custom
function from an instant to text. -/
inductive TimestampFormat where
  | iso
  | locale
  | time
  | unix
  | custom (f : Nat → String)

/-- The per-call mutable context record (`LogContext` in
src/unnamed/part_000). -/
structure LogContext where
  level : Nat
  levelName : String
  namespace? : Option String
  timestamp : Nat
  args : List LogArg
  formattedMessage : Option String

/-- What a stage does with its zero-argument continuation `next`. -/
inductive Control where
  | callNext
  | noNext
  | throwBefore
  | nextThenThrow
deriving DecidableEq

/-- A middleware stage `(ctx, next) => ...`.  `transform` gives the new values
of the two context fields a stage may reassign under the spec's mutation
contract (`args`, `formattedMessage`); `control` is the stage's continuation
behaviour, decided on the transformed context. -/
structure Stage where
  transform : LogContext → List LogArg × Option String
  control : LogContext → Control

/-- The `Logger` instance state (src/src/utils.ts lines 145-162). -/
structure Logger where
  logLevel : Nat
  namespace? : Option String
  colorsEnabled : Bool
  timestampFormat : Option TimestampFormat
  depth : Nat
  maxArrayLength : Nat
  logListeners : List Listener
  middleware : List Stage

/-- Constructor option for `timestamp`: `boolean | TimestampFormat`. -/
inductive TimestampOpt where
  | bool (b : Bool)
  | fmt (f : TimestampFormat)

/-- `LogOptions` from src/unnamed/part_000; `none` models an absent key. -/
structure LogOptions where
  level : Option Nat
  namespace? : Option String
  colors : Option Bool
  timestamp : Option TimestampOpt
  depth : Option Nat
  maxArrayLength : Option Nat

/-- The empty options object `{}`. -/
def emptyOptions : LogOptions :=
  { level := none, namespace? := none, colors := none, timestamp := none,
    depth := none, maxArrayLength := none }

/-- JS truthiness of an optional string (`undefined` and `""` are falsy). -/
def truthyS : Option String → Bool
  | none => false
  | some s => s != ""

/-- The constructor's mapping of the `timestamp` option:
`options.timestamp === true ? 'iso' : options.timestamp || false`. -/
def mapTimestampOpt : Option TimestampOpt → Option TimestampFormat
  | some (.bool true) => some .iso
  | some (.bool false) => none
  | some (.fmt f) => some f
  | none => none

/-- `new Logger(options)` (src/src/utils.ts lines 155-162). -/
def Logger.ofOptions (options : LogOptions) : Logger :=
  { logLevel := options.level.getD LogLevel.DEBUG
    namespace? := options.namespace?
    colorsEnabled := options.colors.getD true
    timestampFormat := mapTimestampOpt options.timestamp
    depth := options.depth.getD 4
    maxArrayLength := options.maxArrayLength.getD 100
    logListeners := []
    middleware := [] }

/-- `createContext` (src/src/utils.ts lines 164-175): `ctx.namespace` is set
only when `this.namespace` is truthy. -/
def Logger.createContext (lg : Logger) (level : Nat) (args : List LogArg)
    (now : Nat) : LogContext :=
  { level := level
    levelName := levelNameOf level
    namespace? := if truthyS lg.namespace? then lg.namespace? else none
    timestamp := now
    args := args
    formattedMessage := none }

/-- Rendering of `Date.toISOString` — external presentation collaborator,
modelled as an opaque tagged rendering of the instant. -/
def isoString (t : Nat) : String := "iso:" ++ toString t

/-- Rendering of `Date.toLocaleString` — external collaborator, opaque. -/
def localeString (t : Nat) : String := "locale:" ++ toString t

/-- Rendering of `Date.toLocaleTimeString` — external collaborator, opaque. -/
def timeString (t : Nat) : String := "time:" ++ toString t

/-- `formatTimestamp` (src/src/utils.ts lines 177-196). -/
def Logger.formatTimestamp (lg : Logger) (t : Nat) : String :=
  match lg.timestampFormat with
  | none => ""
  | some .iso => isoString t
  | some .locale => localeString t
  | some .time => timeString t
  | some .unix => toString t
  | some (.custom f) => f t

/-- `getColor` (src/src/utils.ts lines 198-216). -/
def Logger.getColor (lg : Logger) (level : Nat) : String :=
  if !lg.colorsEnabled then ""
  else match level with
    | 0 => "\x1b[90m"
    | 1 => "\x1b[34m"
    | 2 => "\x1b[32m"
    | 3 => "\x1b[33m"
    | 4 => "\x1b[31m"
    | 5 => "\x1b[35m"
    | _ => ""

/-- `reset` (src/src/utils.ts lines 218-220). -/
def Logger.resetCode (lg : Logger) : String :=
  if lg.colorsEnabled then "\x1b[0m" else ""

/-- `gray` (src/src/utils.ts lines 222-224). -/
def Logger.gray (lg : Logger) (text : String) : String :=
  if lg.colorsEnabled then "\x1b[90m" ++ text ++ "\x1b[0m" else text

/-- `Array.prototype.join(sep)` on a list of strings. -/
def joinWith (sep : String) : List String → String
  | [] => ""
  | [x] => x
  | x :: y :: xs => x ++ sep ++ joinWith sep (y :: xs)

/-- Rendering of one argument inside `formatArgs`: strings pass through
verbatim; non-string values go to the external `inspectValue` collaborator,
modelled as the fixed token `[Object]`. -/
def renderArg : LogArg → String
  | .str s => s
  | .other _ => "[Object]"

/-- `formatArgs` (src/src/utils.ts lines 101-116): empty → `""`; a single
string argument passes through; otherwise arguments are rendered and joined
with a space. -/
def formatArgs (args : List LogArg) : String :=
  match args with
  | [] => ""
  | [LogArg.str s] => s
  | l => joinWith " " (l.map renderArg)

/-- `formatMessage` (src/src/utils.ts lines 226-248): optional timestamp part,
optional namespace part, colored level tag, formatted args, joined with a
space. -/
def Logger.formatMessage (lg : Logger) (ctx : LogContext) : String :=
  let tsParts :=
    if lg.timestampFormat.isSome then
      [lg.gray ("[" ++ lg.formatTimestamp ctx.timestamp ++ "]")]
    else []
  let nsParts :=
    if truthyS ctx.namespace? then
      [lg.gray ("[" ++ ctx.namespace?.getD "" ++ "]")]
    else []
  let levelPart := lg.getColor ctx.level ++ "[" ++ ctx.levelName ++ "]" ++ lg.resetCode
  joinWith " " (tsParts ++ nsParts ++ [levelPart, formatArgs ctx.args])

/-- `removeListener` applied to the live listener array (used by a listener
running during fan-out): `filter((l) => l !== listener)`. -/
def removeById (cur : List Listener) (i : Nat) : List Listener :=
  cur.filter (fun l => l.id != i)

/-- Listener fan-out: `this.logListeners.forEach((listener) => listener(ctx))`.
The `forEach` iterates the array captured at its start; `removeListener`
reassigns `this.logListeners` to a fresh filtered array, so removals performed
by a listener only change the logger's current list (second component), never
the snapshot being iterated.  Returns the invoked listener ids in order and
the logger's listener list afterwards. -/
def fanOut (snapshot cur : List Listener) : List Nat × List Listener :=
  match snapshot with
  | [] => ([], cur)
  | l :: rest =>
    let cur' := l.removeIds.foldl removeById cur
    let r := fanOut rest cur'
    (l.id :: r.1, r.2)

/-- `output` (src/src/utils.ts lines 250-264): the emission gate.  Emits iff
`ctx.level >= this.logLevel && ctx.level < LogLevel.SILENT`; resolves the text
from `formattedMessage` if present; routes error-and-above to `console.error`,
warning to `console.warn`, the rest to `console.log`; then fans out to
listeners.  Returns (emissions, notified listener ids, listener list after the
call). -/
def Logger.output (lg : Logger) (ctx : LogContext) :
    List Emission × List Nat × List Listener :=
  if ctx.level ≥ lg.logLevel ∧ ctx.level < LogLevel.SILENT then
    let message := ctx.formattedMessage.getD (lg.formatMessage ctx)
    let ch : Channel :=
      if ctx.level ≥ LogLevel.ERROR then .error
      else if ctx.level = LogLevel.WARNING then .warn
      else .log
    let fo := fanOut lg.logListeners lg.logListeners
    ([{ channel := ch, message := message }], fo.1, fo.2)
  else ([], [], lg.logListeners)

/-- Observable result of one log call: gate emissions, notified listener ids,
count of `console.error('Middleware error:', ...)` reports from caught stage
exceptions, indices of stages that began executing (in execution order), the
logger's listener list after the call, and the context as seen by the emission
gate (`none` when the gate was never reached). -/
structure RunResult where
  emissions : List Emission
  notified : List Nat
  mwErrors : Nat
  executed : List Nat
  finalListeners : List Listener
  gateCtx : Option LogContext

/-- Applying a stage's mutation to the shared context. -/
def applyStage (s : Stage) (c : LogContext) : LogContext :=
  let t := s.transform c
  { c with args := t.1, formattedMessage := t.2 }

/-- The `next` closure of `logWithMiddleware` (src/src/utils.ts lines
274-287), run over the remaining stage list.  Stage indices in `executed` are
relative to the given list.  A stage that throws (with or without having
called its continuation) has the exception caught by the `try` wrapping its
invocation and reported (`mwErrors`); nothing propagates to the caller. -/
def Logger.runNext (lg : Logger) : List Stage → LogContext → RunResult
  | [], ctx =>
    let o := lg.output ctx
    { emissions := o.1, notified := o.2.1, mwErrors := 0, executed := [],
      finalListeners := o.2.2, gateCtx := some ctx }
  | s :: rest, ctx =>
    let ctx' := applyStage s ctx
    match s.control ctx' with
    | .noNext =>
      { emissions := [], notified := [], mwErrors := 0, executed := [0],
        finalListeners := lg.logListeners, gateCtx := none }
    | .throwBefore =>
      { emissions := [], notified := [], mwErrors := 1, executed := [0],
        finalListeners := lg.logListeners, gateCtx := none }
    | .callNext =>
      let r := lg.runNext rest ctx'
      { r with executed := 0 :: r.executed.map (· + 1) }
    | .nextThenThrow =>
      let r := lg.runNext rest ctx'
      { r with executed := 0 :: r.executed.map (· + 1),
               mwErrors := r.mwErrors + 1 }

/-- `logWithMiddleware` (src/src/utils.ts lines 266-288).  The source's
zero-middleware fast path (`this.output(ctx)` directly) coincides with
`runNext []`. -/
def Logger.logWithMiddleware (lg : Logger) (level : Nat) (args : List LogArg)
    (now : Nat) : RunResult :=
  lg.runNext lg.middleware (lg.createContext level args now)

/-- `trace(...args)` (src/src/utils.ts line 290). -/
def Logger.trace (lg : Logger) (args : List LogArg) (now : Nat) : RunResult :=
  lg.logWithMiddleware LogLevel.TRACE args now

/-- `debug(...args)`. -/
def Logger.debug (lg : Logger) (args : List LogArg) (now : Nat) : RunResult :=
  lg.logWithMiddleware LogLevel.DEBUG args now

/-- `info(...args)`. -/
def Logger.info (lg : Logger) (args : List LogArg) (now : Nat) : RunResult :=
  lg.logWithMiddleware LogLevel.INFO args now

/-- `warning(...args)`. -/
def Logger.warning (lg : Logger) (args : List LogArg) (now : Nat) : RunResult :=
  lg.logWithMiddleware LogLevel.WARNING args now

/-- `error(...args)`. -/
def Logger.error (lg : Logger) (args : List LogArg) (now : Nat) : RunResult :=
  lg.logWithMiddleware LogLevel.ERROR args now

/-- `fatal(...args)`. -/
def Logger.fatal (lg : Logger) (args : List LogArg) (now : Nat) : RunResult :=
  lg.logWithMiddleware LogLevel.FATAL args now

/-- `use(middleware)` (src/src/utils.ts lines 318-321). -/
def Logger.use (lg : Logger) (m : Stage) : Logger :=
  { lg with middleware := lg.middleware ++ [m] }

/-- `setLevel(level)`. -/
def Logger.setLevel (lg : Logger) (level : Nat) : Logger :=
  { lg with logLevel := level }

/-- `addListener(listener)` (src/src/utils.ts lines 372-375). -/
def Logger.addListener (lg : Logger) (l : Listener) : Logger :=
  { lg with logListeners := lg.logListeners ++ [l] }

/-- `removeListener(listener)` (src/src/utils.ts lines 377-380): reassigns the
listener array to `filter((l) => l !== listener)`; identity is modelled by
`id`. -/
def Logger.removeListener (lg : Logger) (listener : Listener) : Logger :=
  { lg with logListeners := lg.logListeners.filter (fun l => l.id != listener.id) }

/-- `silent()` (src/src/utils.ts lines 382-385). -/
def Logger.silent (lg : Logger) : Logger :=
  { lg with logLevel := LogLevel.SILENT }

/-- `child(namespace, options)` (src/src/utils.ts lines 323-341): joins the
namespace using the parent's truthiness, derives child options with the
parent's settings as fallbacks, constructs a fresh `Logger`, then copies the
middleware and listener arrays by value (`[...this.middleware]`,
`[...this.logListeners]`). -/
def Logger.child (lg : Logger) (seg : String) (options : LogOptions) : Logger :=
  let childNamespace :=
    if truthyS lg.namespace? then lg.namespace?.getD "" ++ ":" ++ seg else seg
  { logLevel := options.level.getD lg.logLevel
    namespace? := some childNamespace
    colorsEnabled := options.colors.getD lg.colorsEnabled
    timestampFormat :=
      match options.timestamp with
      | some o => mapTimestampOpt (some o)
      | none => lg.timestampFormat
    depth := options.depth.getD lg.depth
    maxArrayLength := options.maxArrayLength.getD lg.maxArrayLength
    logListeners := lg.logListeners
    middleware := lg.middleware }

/-- `filterLevel(minLevel)` (src/src/middleware.ts lines 3-9): calls `next()`
only when `ctx.level >= minLevel`. -/
def filterLevel (minLevel : Nat) : Stage :=
  { transform := fun c => (c.args, c.formattedMessage)
    control := fun c => if c.level ≥ minLevel then .callNext else .noNext }

/-- `prefixMiddleware(prefix)` (src/src/middleware.ts lines 11-16):
`ctx.args = [prefix, ...ctx.args]; next()`. -/
def prefixMiddleware (p : String) : Stage :=
  { transform := fun c => (LogArg.str p :: c.args, c.formattedMessage)
    control := fun _ => .callNext }

/-- `suffixMiddleware(suffix)` (src/src/middleware.ts lines 18-23):
`ctx.args = [...ctx.args, suffix]; next()`. -/
def suffixMiddleware (s : String) : Stage :=
  { transform := fun c => (c.args ++ [LogArg.str s], c.formattedMessage)
    control := fun _ => .callNext }

/-- JS `String.prototype.split(pattern)` for a nonempty literal pattern
`p0 :: ps`, on character lists: greedy left-to-right scan, consuming each
match. -/
def splitOnL (p0 : Char) (ps : List Char) : List Char → List (List Char)
  | [] => [[]]
  | c :: rest =>
    if (p0 :: ps).isPrefixOf (c :: rest) then
      [] :: splitOnL p0 ps (rest.drop ps.length)
    else
      match splitOnL p0 ps rest with
      | [] => [[c]]
      | piece :: pieces => (c :: piece) :: pieces
termination_by s => s.length
decreasing_by
  · simp only [List.length_cons, List.length_drop]
    omega
  · simp only [List.length_cons]
    omega

/-- `Array.prototype.join(sep)` on character-list pieces. -/
def joinPieces (sep : List Char) : List (List Char) → List Char
  | [] => []
  | [x] => x
  | x :: y :: xs => x ++ sep ++ joinPieces sep (y :: xs)

/-- Fused `split(p).join(r)`: replace every (non-overlapping, leftmost-first)
occurrence of the nonempty pattern `p0 :: ps` by `r`. -/
def replaceAll (p0 : Char) (ps r : List Char) : List Char → List Char
  | [] => []
  | c :: rest =>
    if (p0 :: ps).isPrefixOf (c :: rest) then
      r ++ replaceAll p0 ps r (rest.drop ps.length)
    else
      c :: replaceAll p0 ps r rest
termination_by s => s.length
decreasing_by
  · simp only [List.length_cons, List.length_drop]
    omega
  · simp only [List.length_cons]
    omega

/-- Decidable "the pattern occurs as a contiguous substring" scan. -/
def occursB (p : List Char) : List Char → Bool
  | [] => p.isEmpty
  | c :: rest => p.isPrefixOf (c :: rest) || occursB p rest

/-- The fixed redaction placeholder `'[REDACTED]'`. -/
def REDACTED : List Char := "[REDACTED]".data

/-- JS `String.prototype.split` with a literal string separator, for every
separator: the empty separator splits into single characters
(`"".split("")` is `[]`, `"ab".split("")` is `["a","b"]`), a nonempty one
runs the greedy scan. -/
def splitOnStr (p : List Char) (s : List Char) : List (List Char) :=
  match p with
  | [] => s.map (fun c => [c])
  | p0 :: ps => splitOnL p0 ps s

/-- JS `String.prototype.replace` with a non-global RegExp: replace only the
first (leftmost) match of the nonempty pattern `p0 :: ps` by `r`. -/
def replaceFirst (p0 : Char) (ps r : List Char) : List Char → List Char
  | [] => []
  | c :: rest =>
    if (p0 :: ps).isPrefixOf (c :: rest) then r ++ rest.drop ps.length
    else c :: replaceFirst p0 ps r rest

/-- A configured redaction pattern (`(string | RegExp)[]`,
src/src/middleware.ts line 121): a literal string, or a RegExp with its
global flag.  RegExp patterns are modelled by the subclass whose language is
a fixed nonempty literal (such as `/secret/` or `/secret/g`, given as head
plus tail of the body); general regex syntax is outside the model. -/
inductive RedactPattern where
  | str (lit : List Char)
  | regex (body : Char × List Char) (global : Bool)

/-- One iteration of the pattern loop of `redactMiddleware` on one string
(src/src/middleware.ts lines 126-132): a string pattern runs
`result.split(pattern).join('[REDACTED]')`, replacing every occurrence; a
RegExp pattern runs `result.replace(pattern, '[REDACTED]')`, which replaces
every match when the regex has the global flag and only the first match
otherwise. -/
def applyPattern (s : List Char) : RedactPattern → List Char
  | .str lit => joinPieces REDACTED (splitOnStr lit s)
  | .regex body true => replaceAll body.1 body.2 REDACTED s
  | .regex body false => replaceFirst body.1 body.2 REDACTED s

/-- The per-argument body of `redactMiddleware` (src/src/middleware.ts lines
121-139): string arguments have every pattern applied in order; non-string
arguments are returned unchanged. -/
def redactArg (patterns : List RedactPattern) : LogArg → LogArg
  | .str s => .str (String.mk (patterns.foldl applyPattern s.data))
  | .other n => .other n

/-- `redactMiddleware(patterns)` as a stage: maps `redactArg` over `ctx.args`
and calls `next()`. -/
def redactMiddleware (patterns : List RedactPattern) : Stage :=
  { transform := fun c => (c.args.map (redactArg patterns), c.formattedMessage)
    control := fun _ => .callNext }

/-- JS template-literal stringification of `ctx.args[0]` used by the throttle
key (`undefined` when the args array is empty; non-string values rendered by
the external collaborator, modelled opaquely). -/
def argKeyStr : Option LogArg → String
  | none => "undefined"
  | some (.str s) => s
  | some (.other n) => "object:" ++ toString n

/-- The throttle key `` `${ctx.level}:${ctx.args[0]}` ``. -/
def throttleKey (level : Nat) (args : List LogArg) : String :=
  toString level ++ ":" ++ argKeyStr args.head?

/-- One entry of the throttle's private `counts` map. -/
structure ThrottleEntry where
  count : Nat
  resetAt : Nat
deriving DecidableEq

/-- `Map.get(key)` on the assoc-list model of the counts map. -/
def lookupT (m : List (String × ThrottleEntry)) (key : String) :
    Option ThrottleEntry :=
  (m.find? (fun e => e.1 == key)).map Prod.snd

/-- `Map.set(key, v)`: replace the entry for `key`, or append a fresh one. -/
def setT (m : List (String × ThrottleEntry)) (key : String)
    (v : ThrottleEntry) : List (String × ThrottleEntry) :=
  if (m.find? (fun e => e.1 == key)).isSome then
    m.map (fun e => if e.1 == key then (key, v) else e)
  else m ++ [(key, v)]

/-- One invocation of the closure returned by `throttleMiddleware(options)`
(src/src/middleware.ts lines 30-47), with its private `counts` state passed
explicitly and `Date.now()` as the `now` parameter.  Returns the new state and
whether `next()` was invoked. -/
def throttleStep (limit interval : Nat) (counts : List (String × ThrottleEntry))
    (level : Nat) (args : List LogArg) (now : Nat) :
    List (String × ThrottleEntry) × Bool :=
  let key := throttleKey level args
  match lookupT counts key with
  | none => (setT counts key { count := 1, resetAt := now + interval }, true)
  | some entry =>
    if now ≥ entry.resetAt then
      (setT counts key { count := 1, resetAt := now + interval }, true)
    else if entry.count < limit then
      (setT counts key { count := entry.count + 1, resetAt := entry.resetAt }, true)
    else
      (counts, false)

/-- Heap view used to settle the aliasing content of `child()`: middleware and
listener arrays live in stores indexed by reference, so that a spread copy
(`[...this.middleware]`, a fresh cell with the same contents) is
distinguishable from sharing a backing array. -/
structure Heap where
  mwStore : List (List Stage)
  lsStore : List (List Listener)

/-- A logger as a pair of references into the heap's two stores (only the
fields relevant to the snapshot-isolation invariant are modelled here; the
value-typed fields are covered by `Logger`). -/
structure HLogger where
  mwRef : Nat
  lsRef : Nat

/-- Read a logger's middleware array from the heap. -/
def Heap.readMw (h : Heap) (l : HLogger) : List Stage :=
  (h.mwStore.getD l.mwRef [])

/-- Read a logger's listener array from the heap. -/
def Heap.readLs (h : Heap) (l : HLogger) : List Listener :=
  (h.lsStore.getD l.lsRef [])

/-- `use(middleware)` on the heap view: push onto this logger's own array. -/
def Heap.useOp (h : Heap) (l : HLogger) (s : Stage) : Heap :=
  { h with mwStore := h.mwStore.set l.mwRef (h.readMw l ++ [s]) }

/-- `addListener(listener)` on the heap view. -/
def Heap.addListenerOp (h : Heap) (l : HLogger) (x : Listener) : Heap :=
  { h with lsStore := h.lsStore.set l.lsRef (h.readLs l ++ [x]) }

/-- `removeListener(listener)` on the heap view: reassign this logger's cell
to the filtered array. -/
def Heap.removeListenerOp (h : Heap) (l : HLogger) (x : Listener) : Heap :=
  { h with
    lsStore := h.lsStore.set l.lsRef
      ((h.readLs l).filter (fun e => e.id != x.id)) }

/-- `child()` on the heap view (src/src/utils.ts lines 337-340): the child
gets fresh cells holding copies of the parent's arrays at the moment of the
call (`child.middleware = [...this.middleware]`,
`child.logListeners = [...this.logListeners]`). -/
def Heap.childOp (h : Heap) (p : HLogger) : Heap × HLogger :=
  ({ mwStore := h.mwStore ++ [h.readMw p], lsStore := h.lsStore ++ [h.readLs p] },
   { mwRef := h.mwStore.length, lsRef := h.lsStore.length })

/-- Validity of a logger's references into the heap. -/
def Heap.valid (h : Heap) (l : HLogger) : Prop :=
  l.mwRef < h.mwStore.length ∧ l.lsRef < h.lsStore.length

/-- A filter-style stage that never calls its continuation and does not
throw (transform is the identity on the mutable fields). -/
def haltStage : Stage :=
  { transform := fun c => (c.args, c.formattedMessage)
    control := fun _ => Control.noNext }

/-- A faulty stage that throws before calling its continuation. -/
def throwStage : Stage :=
  { transform := fun c => (c.args, c.formattedMessage)
    control := fun _ => Control.throwBefore }

/-- A stage that calls its continuation and then throws
(`(ctx, next) => { next(); throw new Error(...) }`). -/
def throwAfterStage : Stage :=
  { transform := fun c => (c.args, c.formattedMessage)
    control := fun _ => Control.nextThenThrow }

/-- `new Logger()` with default options. -/
def demoLogger : Logger := Logger.ofOptions emptyOptions

/-- Default logger with a single never-continuing stage registered. -/
def demoLoggerC2 : Logger := demoLogger.use haltStage

/-- Default logger with a single stage that calls `next()` and then throws. -/
def demoLoggerC3 : Logger := demoLogger.use throwAfterStage

/-- Default logger with two listeners registered. -/
def demoLoggerC8 : Logger :=
  (demoLogger.addListener { id := 1, removeIds := [] }).addListener
    { id := 2, removeIds := [] }

/-- A two-cell heap: one logger owning one stage and one listener. -/
def demoHeap : Heap :=
  { mwStore := [[haltStage]], lsStore := [[{ id := 1, removeIds := [] }]] }

/-- The reference pair of the logger allocated in `demoHeap`. -/
def demoHRef : HLogger := { mwRef := 0, lsRef := 0 }

/-- The literal string pattern `"secret"`. -/
def secretPat : RedactPattern := RedactPattern.str "secret".data

/-- Fan-out invokes exactly the ids of the snapshot captured when it began,
in order, regardless of removals performed by listeners along the way. -/
theorem fanOut_fst (snapshot : List Listener) :
    ∀ cur, (fanOut snapshot cur).1 = snapshot.map (fun l => l.id) := by
  induction snapshot with
  | nil => intro cur; rfl
  | cons l rest ih => intro cur; simp [fanOut, ih]

/-- If the emission gate is never reached, a run writes nothing and notifies
nobody. -/
theorem runNext_gate_none (lg : Logger) :
    ∀ (stages : List Stage) (ctx : LogContext),
      (lg.runNext stages ctx).gateCtx = none →
      (lg.runNext stages ctx).emissions = [] ∧
        (lg.runNext stages ctx).notified = [] := by
  intro stages
  induction stages with
  | nil => intro ctx h; simp [Logger.runNext] at h
  | cons s rest ih =>
    intro ctx h
    simp only [Logger.runNext] at h ⊢
    cases hc : s.control (applyStage s ctx) <;> simp [hc] at h ⊢
    · exact ih (applyStage s ctx) h
    · exact ih (applyStage s ctx) h

/-- Ids notified by a run all come from the logger's listener list. -/
theorem runNext_notified_mem (lg : Logger) :
    ∀ (stages : List Stage) (ctx : LogContext) (i : Nat),
      i ∈ (lg.runNext stages ctx).notified →
      i ∈ lg.logListeners.map (fun l => l.id) := by
  intro stages
  induction stages with
  | nil =>
    intro ctx i h
    simp only [Logger.runNext, Logger.output] at h
    split at h
    · simpa [fanOut_fst] using h
    · simp at h
  | cons s rest ih =>
    intro ctx i h
    simp only [Logger.runNext] at h
    cases hc : s.control (applyStage s ctx) <;> simp [hc] at h
    · exact ih (applyStage s ctx) i h
    · exact ih (applyStage s ctx) i h

/-- A run over a chain whose stages all call their continuation: every stage
executes, in registration order; the gate sees the left fold of the stage
transforms over the initial context; no middleware error is reported; and the
emissions, notifications and final listener list are those of `output` on the
folded context. -/
theorem runNext_all_callNext (lg : Logger) :
    ∀ (stages : List Stage) (ctx : LogContext),
      (∀ s ∈ stages, ∀ c, s.control c = Control.callNext) →
      lg.runNext stages ctx =
        { emissions := (lg.output (stages.foldl (fun c s => applyStage s c) ctx)).1
          notified := (lg.output (stages.foldl (fun c s => applyStage s c) ctx)).2.1
          mwErrors := 0
          executed := List.range stages.length
          finalListeners := (lg.output (stages.foldl (fun c s => applyStage s c) ctx)).2.2
          gateCtx := some (stages.foldl (fun c s => applyStage s c) ctx) } := by
  intro stages
  induction stages with
  | nil => intro ctx _; rfl
  | cons s rest ih =>
    intro ctx hall
    have hs : s.control (applyStage s ctx) = Control.callNext :=
      hall s (List.mem_cons_self s rest) _
    have hrest : ∀ t ∈ rest, ∀ c, t.control c = Control.callNext :=
      fun t ht => hall t (List.mem_cons_of_mem s ht)
    simp only [Logger.runNext, hs, ih (applyStage s ctx) hrest, List.foldl_cons,
      List.length_cons]
    rw [List.range_succ_eq_map]

/-- Cons form of `List.range (n + 1)` matching the executed-index bookkeeping
of `runNext`. -/
theorem range_succ_cons (n : Nat) :
    0 :: (List.range n).map (· + 1) = List.range (n + 1) := by
  rw [List.range_succ_eq_map]

/-- If some stage of the chain never calls its continuation (or always throws
before calling it), the gate is never reached and no stage after it begins
executing. -/
theorem runNext_stops (lg : Logger) :
    ∀ (stages : List Stage) (ctx : LogContext) (k : Nat) (sk : Stage),
      stages[k]? = some sk →
      (∀ c, sk.control c = Control.noNext ∨ sk.control c = Control.throwBefore) →
      (lg.runNext stages ctx).gateCtx = none ∧
        ∀ j, k < j → j ∉ (lg.runNext stages ctx).executed := by
  intro stages
  induction stages with
  | nil => intro ctx k sk hk; simp at hk
  | cons s rest ih =>
    intro ctx k sk hk hstop
    match k with
    | 0 =>
      have hs : sk = s := by simpa using hk.symm
      have hc := hstop (applyStage s ctx)
      rw [hs] at hc
      rcases hc with hc | hc
      · refine ⟨by simp [Logger.runNext, hc], ?_⟩
        intro j hj
        simp [Logger.runNext, hc]
        omega
      · refine ⟨by simp [Logger.runNext, hc], ?_⟩
        intro j hj
        simp [Logger.runNext, hc]
        omega
    | k' + 1 =>
      have hk' : rest[k']? = some sk := by simpa using hk
      cases hc : s.control (applyStage s ctx)
      · have := ih (applyStage s ctx) k' sk hk' hstop
        refine ⟨by simp [Logger.runNext, hc, this.1], ?_⟩
        intro j hj hmem
        simp [Logger.runNext, hc] at hmem
        rcases hmem with h0 | ⟨j', hj', hjj⟩
        · omega
        · exact this.2 j' (by omega) hj'
      · refine ⟨by simp [Logger.runNext, hc], ?_⟩
        intro j hj
        simp [Logger.runNext, hc]
        omega
      · refine ⟨by simp [Logger.runNext, hc], ?_⟩
        intro j hj
        simp [Logger.runNext, hc]
        omega
      · have := ih (applyStage s ctx) k' sk hk' hstop
        refine ⟨by simp [Logger.runNext, hc, this.1], ?_⟩
        intro j hj hmem
        simp [Logger.runNext, hc] at hmem
        rcases hmem with h0 | ⟨j', hj', hjj⟩
        · omega
        · exact this.2 j' (by omega) hj'

/-- Exact result of a run in which every stage before index `k` calls its
continuation and the stage at `k` throws without calling it: one middleware
error is reported, stages `0..k` execute, and nothing reaches the gate. -/
theorem runNext_throwBefore_exact (lg : Logger) :
    ∀ (stages : List Stage) (ctx : LogContext) (k : Nat) (sk : Stage),
      stages[k]? = some sk →
      (∀ c, sk.control c = Control.throwBefore) →
      (∀ i si, i < k → stages[i]? = some si →
        ∀ c, si.control c = Control.callNext) →
      lg.runNext stages ctx =
        { emissions := [], notified := [], mwErrors := 1,
          executed := List.range (k + 1),
          finalListeners := lg.logListeners, gateCtx := none } := by
  intro stages
  induction stages with
  | nil => intro ctx k sk hk; simp at hk
  | cons s rest ih =>
    intro ctx k sk hk hthrow hbefore
    match k with
    | 0 =>
      have hs : sk = s := by simpa using hk.symm
      have hc := hthrow (applyStage s ctx)
      rw [hs] at hc
      simp [Logger.runNext, hc, List.range_succ]
    | k' + 1 =>
      have hk' : rest[k']? = some sk := by simpa using hk
      have hs : s.control (applyStage s ctx) = Control.callNext :=
        hbefore 0 s (by omega) (by simp) _
      have hbefore' : ∀ i si, i < k' → rest[i]? = some si →
          ∀ c, si.control c = Control.callNext := by
        intro i si hi hig
        exact hbefore (i + 1) si (by omega) (by simpa using hig)
      simp only [Logger.runNext, hs, ih (applyStage s ctx) k' sk hk' hthrow hbefore']
      rw [range_succ_cons]

/-- Stage transforms only reassign `args`/`formattedMessage`; the folded
context keeps the level (and namespace/timestamp/levelName) of the original. -/
theorem foldl_applyStage_level :
    ∀ (stages : List Stage) (ctx : LogContext),
      (stages.foldl (fun c s => applyStage s c) ctx).level = ctx.level := by
  intro stages
  induction stages with
  | nil => intro ctx; rfl
  | cons s rest ih => intro ctx; simpa using ih (applyStage s ctx)

/-- C1: for a log call at one of the six public levels whose middleware chain
completes (every stage calls its continuation; the empty chain completes
trivially), output is emitted iff the call's level is at least the threshold
and the threshold is not the SILENT sentinel; a suppressed call writes
nothing to any channel and fires no listener; and after `silent()` every
subsequent call, at every level, is suppressed. -/
theorem c1_emission_gate :
    (∀ (lg : Logger) (level : Nat) (args : List LogArg) (now : Nat),
      level ≤ LogLevel.FATAL →
      (∀ s ∈ lg.middleware, ∀ c, s.control c = Control.callNext) →
      ((lg.logWithMiddleware level args now).emissions ≠ [] ↔
        (lg.logLevel ≤ level ∧ lg.logLevel ≠ LogLevel.SILENT)) ∧
      (¬ (lg.logLevel ≤ level ∧ lg.logLevel ≠ LogLevel.SILENT) →
        (lg.logWithMiddleware level args now).emissions = [] ∧
          (lg.logWithMiddleware level args now).notified = [] ∧
          (lg.logWithMiddleware level args now).mwErrors = 0)) ∧
    (∀ (lg : Logger) (level : Nat) (args : List LogArg) (now : Nat),
      (∀ s ∈ lg.middleware, ∀ c, s.control c = Control.callNext) →
      (lg.silent.logWithMiddleware level args now).emissions = [] ∧
        (lg.silent.logWithMiddleware level args now).notified = []) := by
  constructor
  · intro lg level args now hlev hall
    have hrun := runNext_all_callNext lg lg.middleware
      (lg.createContext level args now) hall
    have hfold := foldl_applyStage_level lg.middleware
      (lg.createContext level args now)
    have hctxlev : (lg.middleware.foldl (fun c s => applyStage s c)
        (lg.createContext level args now)).level = level := by
      rw [hfold]; rfl
    rw [Logger.logWithMiddleware, hrun]
    simp only [Logger.output, hctxlev]
    constructor
    · by_cases h : level ≥ lg.logLevel ∧ level < LogLevel.SILENT
      · rw [if_pos h]
        simp only [ne_eq, List.cons_ne_self, not_false_eq_true, true_iff]
        simp only [LogLevel.SILENT, LogLevel.FATAL] at *
        omega
      · rw [if_neg h]
        simp only [ne_eq, not_true_eq_false, false_iff]
        simp only [LogLevel.SILENT, LogLevel.FATAL] at *
        omega
    · intro hsup
      have h : ¬ (level ≥ lg.logLevel ∧ level < LogLevel.SILENT) := by
        simp only [LogLevel.SILENT, LogLevel.FATAL] at *
        omega
      rw [if_neg h]
      refine ⟨rfl, rfl, ?_⟩
      trivial
  · intro lg level args now hall
    have hall' : ∀ s ∈ lg.silent.middleware, ∀ c, s.control c = Control.callNext := hall
    have hrun := runNext_all_callNext lg.silent lg.silent.middleware
      (lg.silent.createContext level args now) hall'
    have hfold := foldl_applyStage_level lg.silent.middleware
      (lg.silent.createContext level args now)
    have hctxlev : (lg.silent.middleware.foldl (fun c s => applyStage s c)
        (lg.silent.createContext level args now)).level = level := by
      rw [hfold]; rfl
    rw [Logger.logWithMiddleware, hrun]
    simp only [Logger.output, hctxlev]
    have h : ¬ (level ≥ lg.silent.logLevel ∧ level < LogLevel.SILENT) := by
      simp only [Logger.silent, LogLevel.SILENT]
      omega
    rw [if_neg h]
    exact ⟨rfl, by trivial⟩

/-- Witness for C1: on a default logger (threshold DEBUG, no middleware), an
INFO call emits, and the same logger after `silent()` emits nothing at FATAL. -/
theorem c1_emission_gate_witness :
    (demoLogger.logWithMiddleware LogLevel.INFO [] 0).emissions ≠ [] ∧
      (demoLogger.silent.logWithMiddleware LogLevel.FATAL [] 0).emissions = [] := by
  constructor
  · exact ((c1_emission_gate.1 demoLogger LogLevel.INFO [] 0 (by decide)
      (by intro s hs; simp [demoLogger, Logger.ofOptions, emptyOptions] at hs)).1).mpr
      (by decide)
  · exact (c1_emission_gate.2 demoLogger LogLevel.FATAL [] 0
      (by intro s hs; simp [demoLogger, Logger.ofOptions, emptyOptions] at hs)).1

/-- C2: if some stage of the chain never invokes its continuation and does
not throw, the call emits nothing on any output channel, notifies no
listener, and no stage later in the sequence ever begins executing. -/
theorem c2_withheld_continuation_halts :
    ∀ (lg : Logger) (level : Nat) (args : List LogArg) (now : Nat)
      (k : Nat) (sk : Stage),
      lg.middleware[k]? = some sk →
      (∀ c, sk.control c = Control.noNext) →
      (lg.logWithMiddleware level args now).emissions = [] ∧
        (lg.logWithMiddleware level args now).notified = [] ∧
        ∀ j, k < j → j ∉ (lg.logWithMiddleware level args now).executed := by
  intro lg level args now k sk hk hstop
  have h := runNext_stops lg lg.middleware (lg.createContext level args now) k sk hk
    (fun c => Or.inl (hstop c))
  have h2 := runNext_gate_none lg lg.middleware (lg.createContext level args now) h.1
  exact ⟨h2.1, h2.2, h.2⟩

/-- Witness for C2: a default logger with one never-continuing stage; an INFO
call produces no emission and no notification. -/
theorem c2_withheld_continuation_halts_witness :
    (demoLoggerC2.logWithMiddleware LogLevel.INFO [LogArg.str "m"] 0).emissions = [] ∧
      (demoLoggerC2.logWithMiddleware LogLevel.INFO [LogArg.str "m"] 0).notified = [] ∧
      ∀ j, 0 < j →
        j ∉ (demoLoggerC2.logWithMiddleware LogLevel.INFO [LogArg.str "m"] 0).executed :=
  c2_withheld_continuation_halts demoLoggerC2 LogLevel.INFO [LogArg.str "m"] 0 0
    haltStage rfl (fun _ => rfl)

/-- Exact result of a run in which the stage at index `k` calls its
continuation and then throws, while every other stage calls its continuation
and returns normally: the error is caught and reported, every stage executes,
and the gate sees the full fold — so any emission already made stands. -/
theorem runNext_nextThenThrow_exact (lg : Logger) :
    ∀ (stages : List Stage) (ctx : LogContext) (k : Nat) (sk : Stage),
      stages[k]? = some sk →
      (∀ c, sk.control c = Control.nextThenThrow) →
      (∀ i si, i ≠ k → stages[i]? = some si →
        ∀ c, si.control c = Control.callNext) →
      lg.runNext stages ctx =
        { emissions := (lg.output (stages.foldl (fun c s => applyStage s c) ctx)).1
          notified := (lg.output (stages.foldl (fun c s => applyStage s c) ctx)).2.1
          mwErrors := 1
          executed := List.range stages.length
          finalListeners := (lg.output (stages.foldl (fun c s => applyStage s c) ctx)).2.2
          gateCtx := some (stages.foldl (fun c s => applyStage s c) ctx) } := by
  intro stages
  induction stages with
  | nil => intro ctx k sk hk; simp at hk
  | cons s rest ih =>
    intro ctx k sk hk hthrow hothers
    match k with
    | 0 =>
      have hs : sk = s := by simpa using hk.symm
      have hc := hthrow (applyStage s ctx)
      rw [hs] at hc
      have hrest : ∀ t ∈ rest, ∀ c, t.control c = Control.callNext := by
        intro t ht c
        rcases List.getElem_of_mem ht with ⟨i, hi, hti⟩
        exact hothers (i + 1) t (by omega)
          (by simp only [List.getElem?_cons_succ]; rw [List.getElem?_eq_getElem hi, hti]) c
      simp only [Logger.runNext, hc,
        runNext_all_callNext lg rest (applyStage s ctx) hrest, List.foldl_cons,
        List.length_cons]
      rw [range_succ_cons]
    | k' + 1 =>
      have hk' : rest[k']? = some sk := by simpa using hk
      have hs : s.control (applyStage s ctx) = Control.callNext :=
        hothers 0 s (by omega) (by simp) _
      have hothers' : ∀ i si, i ≠ k' → rest[i]? = some si →
          ∀ c, si.control c = Control.callNext := by
        intro i si hi hig
        exact hothers (i + 1) si (by omega) (by simpa using hig)
      simp only [Logger.runNext, hs,
        ih (applyStage s ctx) k' sk hk' hthrow hothers', List.foldl_cons,
        List.length_cons]
      rw [range_succ_cons]

/-- Counterexample to C3 as stated: a stage that calls `next()` and then
throws.  The exception is caught and reported (`mwErrors = 1`) and the caller
does not raise, but the call did produce output — the continuation had
already driven the chain to the emission gate before the throw. -/
theorem c3_counterexample :
    (demoLoggerC3.logWithMiddleware LogLevel.INFO [LogArg.str "m"] 0).mwErrors = 1 ∧
      (demoLoggerC3.logWithMiddleware LogLevel.INFO [LogArg.str "m"] 0).emissions ≠ [] := by
  constructor
  · rfl
  · decide

/-- C3 (amended): if the failing stage throws before invoking its
continuation (earlier stages completing normally), the exception is caught at
the chain's invocation point and reported to the error channel exactly once,
the caller's log method does not raise (runs are total values here, mirroring
the source's try/catch), the chain stops at the failing stage, and no output
and no listener notification is produced.  If instead the stage throws after
invoking its continuation, the exception is still caught and reported once
and the caller does not raise, but the chain has already run to completion,
so output already produced by the continuation stands. -/
theorem c3_stage_throw_amended :
    (∀ (lg : Logger) (level : Nat) (args : List LogArg) (now : Nat)
       (k : Nat) (sk : Stage),
      lg.middleware[k]? = some sk →
      (∀ c, sk.control c = Control.throwBefore) →
      (∀ i si, i < k → lg.middleware[i]? = some si →
        ∀ c, si.control c = Control.callNext) →
      (lg.logWithMiddleware level args now).emissions = [] ∧
        (lg.logWithMiddleware level args now).notified = [] ∧
        (lg.logWithMiddleware level args now).mwErrors = 1 ∧
        (lg.logWithMiddleware level args now).executed = List.range (k + 1)) ∧
    (∀ (lg : Logger) (level : Nat) (args : List LogArg) (now : Nat)
       (k : Nat) (sk : Stage),
      lg.middleware[k]? = some sk →
      (∀ c, sk.control c = Control.nextThenThrow) →
      (∀ i si, i ≠ k → lg.middleware[i]? = some si →
        ∀ c, si.control c = Control.callNext) →
      (lg.logWithMiddleware level args now).mwErrors = 1 ∧
        (lg.logWithMiddleware level args now).executed =
          List.range lg.middleware.length) := by
  constructor
  · intro lg level args now k sk hk hthrow hbefore
    rw [Logger.logWithMiddleware,
      runNext_throwBefore_exact lg lg.middleware (lg.createContext level args now)
        k sk hk hthrow hbefore]
    exact ⟨rfl, rfl, rfl, rfl⟩
  · intro lg level args now k sk hk hthrow hothers
    rw [Logger.logWithMiddleware,
      runNext_nextThenThrow_exact lg lg.middleware (lg.createContext level args now)
        k sk hk hthrow hothers]
    exact ⟨rfl, rfl⟩

/-- Witness for the amended C3: a default logger whose single stage throws
without calling its continuation. -/
theorem c3_stage_throw_amended_witness :
    ((demoLogger.use throwStage).logWithMiddleware LogLevel.INFO [] 0).emissions = [] ∧
      ((demoLogger.use throwStage).logWithMiddleware LogLevel.INFO [] 0).notified = [] ∧
      ((demoLogger.use throwStage).logWithMiddleware LogLevel.INFO [] 0).mwErrors = 1 ∧
      ((demoLogger.use throwStage).logWithMiddleware LogLevel.INFO [] 0).executed =
        List.range 1 :=
  c3_stage_throw_amended.1 (demoLogger.use throwStage) LogLevel.INFO [] 0 0 throwStage
    rfl (fun _ => rfl) (fun i _ hi _ => absurd hi (by omega))

/-- C6: the child's namespace is `parent.namespace + ":" + segment` when the
parent has a (truthy) namespace and the segment alone when it has none, for
any overrides; composing from a root with namespace "app" through "db" and
then "pool" yields "app:db" and "app:db:pool". -/
theorem c6_namespace_join :
    (∀ (lg : Logger) (seg : String) (opts : LogOptions),
      (truthyS lg.namespace? = true →
        (lg.child seg opts).namespace? = some (lg.namespace?.getD "" ++ ":" ++ seg)) ∧
      (truthyS lg.namespace? = false →
        (lg.child seg opts).namespace? = some seg)) ∧
    (∀ (o1 o2 : LogOptions),
      ((Logger.ofOptions { emptyOptions with namespace? := some "app" }).child
          "db" o1).namespace? = some "app:db" ∧
      (((Logger.ofOptions { emptyOptions with namespace? := some "app" }).child
          "db" o1).child "pool" o2).namespace? = some "app:db:pool") := by
  constructor
  · intro lg seg opts
    constructor
    · intro ht; simp [Logger.child, ht]
    · intro ht; simp [Logger.child, ht]
  · intro o1 o2
    constructor
    · simp [Logger.child, Logger.ofOptions, truthyS]
    · simp [Logger.child, Logger.ofOptions, truthyS]

/-- Witness for C6: the general clause instantiated at a parent with
namespace "app" and segment "db". -/
theorem c6_namespace_join_witness :
    ((Logger.ofOptions { emptyOptions with namespace? := some "app" }).child
        "db" emptyOptions).namespace? =
      some ((Logger.ofOptions
        { emptyOptions with namespace? := some "app" }).namespace?.getD "" ++ ":" ++ "db") :=
  (c6_namespace_join.1 (Logger.ofOptions { emptyOptions with namespace? := some "app" })
    "db" emptyOptions).1 (by decide)

/-- C10: a logger constructed with no `level` option has threshold DEBUG; on
a fresh default logger (no middleware), `trace` emits nothing and notifies
nobody, while every call from DEBUG up to FATAL emits. -/
theorem c10_default_threshold :
    (Logger.ofOptions emptyOptions).logLevel = LogLevel.DEBUG ∧
    (∀ (args : List LogArg) (now : Nat),
      ((Logger.ofOptions emptyOptions).trace args now).emissions = [] ∧
        ((Logger.ofOptions emptyOptions).trace args now).notified = []) ∧
    (∀ (level : Nat) (args : List LogArg) (now : Nat),
      LogLevel.DEBUG ≤ level → level ≤ LogLevel.FATAL →
      ((Logger.ofOptions emptyOptions).logWithMiddleware level args now).emissions ≠ []) := by
  refine ⟨rfl, ?_, ?_⟩
  · intro args now
    simp [Logger.trace, Logger.logWithMiddleware, Logger.runNext, Logger.output,
      Logger.createContext, Logger.ofOptions, emptyOptions, LogLevel.TRACE,
      LogLevel.SILENT, LogLevel.DEBUG]
  · intro level args now h1 h2
    have hcond : level ≥ (Logger.ofOptions emptyOptions).logLevel ∧
        level < LogLevel.SILENT := by
      simp only [Logger.ofOptions, emptyOptions, Option.getD, LogLevel.DEBUG,
        LogLevel.SILENT, LogLevel.FATAL] at *
      omega
    have hcond2 : ((Logger.ofOptions emptyOptions).createContext level args now).level ≥
        (Logger.ofOptions emptyOptions).logLevel ∧
        ((Logger.ofOptions emptyOptions).createContext level args now).level <
          LogLevel.SILENT := hcond
    simp only [Logger.logWithMiddleware, Logger.runNext, Logger.output]
    rw [if_pos hcond2]
    simp

/-- Witness for C10: on the fresh default logger, a DEBUG call emits. -/
theorem c10_default_threshold_witness :
    ((Logger.ofOptions emptyOptions).logWithMiddleware LogLevel.DEBUG
      [LogArg.str "m"] 0).emissions ≠ [] :=
  c10_default_threshold.2.2 LogLevel.DEBUG [LogArg.str "m"] 0 (by decide) (by decide)

/-- C8: `removeListener` removes by identity, so no listener with the removed
identity remains registered and no emission made strictly after the removal
notifies it; and a fan-out always invokes exactly the listeners captured in
its snapshot when it began, so a removal performed while a fan-out is in
flight has no effect on that fan-out. -/
theorem c8_removeListener :
    (∀ (lg : Logger) (x : Listener),
      ∀ l ∈ (lg.removeListener x).logListeners, l.id ≠ x.id) ∧
    (∀ (lg : Logger) (x : Listener) (level : Nat) (args : List LogArg) (now : Nat),
      x.id ∉ ((lg.removeListener x).logWithMiddleware level args now).notified) ∧
    (∀ (snapshot cur : List Listener),
      (fanOut snapshot cur).1 = snapshot.map (fun l => l.id)) := by
  refine ⟨?_, ?_, ?_⟩
  · intro lg x l hl
    simp only [Logger.removeListener, List.mem_filter, bne_iff_ne, ne_eq] at hl
    exact hl.2
  · intro lg x level args now hmem
    have h := runNext_notified_mem (lg.removeListener x)
      (lg.removeListener x).middleware
      ((lg.removeListener x).createContext level args now) x.id hmem
    simp only [Logger.removeListener, List.mem_map, List.mem_filter,
      bne_iff_ne, ne_eq] at h
    rcases h with ⟨l, ⟨_, hne⟩, hid⟩
    exact hne hid
  · exact fun snapshot cur => fanOut_fst snapshot cur

/-- Witness for C8: after removing listener 2 from a logger holding listeners
1 and 2, listener 1 is still registered and is not the removed identity. -/
theorem c8_removeListener_witness :
    ({ id := 1, removeIds := [] } : Listener) ∈
        (demoLoggerC8.removeListener { id := 2, removeIds := [] }).logListeners ∧
      ({ id := 1, removeIds := [] } : Listener).id ≠
        ({ id := 2, removeIds := [] } : Listener).id :=
  ⟨by decide,
    c8_removeListener.1 demoLoggerC8 { id := 2, removeIds := [] }
      { id := 1, removeIds := [] } (by decide)⟩

/-- Reading just past an appended cell yields the appended value. -/
theorem getD_concat_length {α : Type} (xs : List α) (a d : α) :
    (xs ++ [a]).getD xs.length d = a := by
  rw [List.getD_eq_getElem?_getD, List.getElem?_append]
  simp

/-- Appending a cell does not change reads of existing cells. -/
theorem getD_append_lt {α : Type} (xs : List α) (a d : α) (i : Nat)
    (h : i < xs.length) : (xs ++ [a]).getD i d = xs.getD i d := by
  rw [List.getD_eq_getElem?_getD, List.getD_eq_getElem?_getD,
    List.getElem?_append]
  simp [h]

/-- Writing one cell does not change reads of a different cell. -/
theorem getD_set_ne {α : Type} (l : List α) (i j : Nat) (a d : α)
    (h : i ≠ j) : (l.set i a).getD j d = l.getD j d := by
  rw [List.getD_eq_getElem?_getD, List.getD_eq_getElem?_getD,
    List.getElem?_set_ne h]

/-- C5: `child()` copies the middleware and listener arrays by value at the
moment of the call — the child's fresh cells hold exactly the parent's
stages and listeners registered so far — and afterwards `use`,
`addListener` and `removeListener` on either instance write only that
instance's own cell, leaving the other's unchanged. -/
theorem c5_child_snapshot_isolation :
    ∀ (h : Heap) (p : HLogger), h.valid p →
      ((h.childOp p).1.readMw (h.childOp p).2 = h.readMw p) ∧
      ((h.childOp p).1.readLs (h.childOp p).2 = h.readLs p) ∧
      (∀ s, ((h.childOp p).1.useOp p s).readMw (h.childOp p).2 =
        (h.childOp p).1.readMw (h.childOp p).2) ∧
      (∀ s, ((h.childOp p).1.useOp (h.childOp p).2 s).readMw p =
        (h.childOp p).1.readMw p) ∧
      (∀ x, ((h.childOp p).1.addListenerOp p x).readLs (h.childOp p).2 =
        (h.childOp p).1.readLs (h.childOp p).2) ∧
      (∀ x, ((h.childOp p).1.addListenerOp (h.childOp p).2 x).readLs p =
        (h.childOp p).1.readLs p) ∧
      (∀ x, ((h.childOp p).1.removeListenerOp p x).readLs (h.childOp p).2 =
        (h.childOp p).1.readLs (h.childOp p).2) ∧
      (∀ x, ((h.childOp p).1.removeListenerOp (h.childOp p).2 x).readLs p =
        (h.childOp p).1.readLs p) := by
  intro h p hv
  obtain ⟨hm, hl⟩ := hv
  have hmne : p.mwRef ≠ h.mwStore.length := by omega
  have hlne : p.lsRef ≠ h.lsStore.length := by omega
  refine ⟨?_, ?_, ?_, ?_, ?_, ?_, ?_, ?_⟩
  · simp only [Heap.childOp, Heap.readMw]
    exact getD_concat_length h.mwStore (h.mwStore.getD p.mwRef []) []
  · simp only [Heap.childOp, Heap.readLs]
    exact getD_concat_length h.lsStore (h.lsStore.getD p.lsRef []) []
  · intro s
    simp only [Heap.childOp, Heap.useOp, Heap.readMw]
    exact getD_set_ne _ p.mwRef h.mwStore.length _ [] hmne
  · intro s
    simp only [Heap.childOp, Heap.useOp, Heap.readMw]
    exact getD_set_ne _ h.mwStore.length p.mwRef _ [] (by omega)
  · intro x
    simp only [Heap.childOp, Heap.addListenerOp, Heap.readLs]
    exact getD_set_ne _ p.lsRef h.lsStore.length _ [] hlne
  · intro x
    simp only [Heap.childOp, Heap.addListenerOp, Heap.readLs]
    exact getD_set_ne _ h.lsStore.length p.lsRef _ [] (by omega)
  · intro x
    simp only [Heap.childOp, Heap.removeListenerOp, Heap.readLs]
    exact getD_set_ne _ p.lsRef h.lsStore.length _ [] hlne
  · intro x
    simp only [Heap.childOp, Heap.removeListenerOp, Heap.readLs]
    exact getD_set_ne _ h.lsStore.length p.lsRef _ [] (by omega)

/-- Witness for C5: in the one-logger demo heap, the child created from the
logger reads back exactly the parent's middleware array. -/
theorem c5_child_snapshot_isolation_witness :
    (demoHeap.childOp demoHRef).1.readMw (demoHeap.childOp demoHRef).2 =
      demoHeap.readMw demoHRef :=
  (c5_child_snapshot_isolation demoHeap demoHRef ⟨by decide, by decide⟩).1

/-- C7: the throttle stage with `limit = 1` over window `W`, starting from its
fresh private state: the first call with a given key invokes its continuation;
a second call with an identical key (same level-plus-first-argument key)
strictly within `W` of the first does not invoke the continuation and leaves
the state unchanged; a call with the same key at or after `W` from the first
invokes the continuation again. -/
theorem c7_throttle_window :
    ∀ (W t0 t1 t2 level level2 : Nat) (args args2 : List LogArg),
      throttleKey level2 args2 = throttleKey level args →
      (throttleStep 1 W [] level args t0).2 = true ∧
      (t1 < t0 + W →
        (throttleStep 1 W (throttleStep 1 W [] level args t0).1 level2 args2 t1).2 = false ∧
        (throttleStep 1 W (throttleStep 1 W [] level args t0).1 level2 args2 t1).1 =
          (throttleStep 1 W [] level args t0).1) ∧
      (t0 + W ≤ t2 →
        (throttleStep 1 W (throttleStep 1 W [] level args t0).1 level2 args2 t2).2 = true) := by
  intro W t0 t1 t2 level level2 args args2 hkey
  have hs1 : (throttleStep 1 W [] level args t0).1 =
      [(throttleKey level args, { count := 1, resetAt := t0 + W })] := rfl
  refine ⟨rfl, ?_, ?_⟩
  · intro ht
    rw [hs1]
    simp only [throttleStep, hkey, lookupT, List.find?, beq_self_eq_true,
      Option.map_some, Option.map_some']
    rw [if_neg (show ¬ t1 ≥ t0 + W by omega)]
    rw [if_neg (show ¬ (1 : Nat) < 1 by omega)]
    exact ⟨rfl, rfl⟩
  · intro ht
    rw [hs1]
    simp only [throttleStep, hkey, lookupT, List.find?, beq_self_eq_true,
      Option.map_some, Option.map_some']
    rw [if_pos (show t2 ≥ t0 + W by omega)]

/-- Witness for C7: window 10, calls at 0, 5 and 10 with the same key — the
second is suppressed, the third passes. -/
theorem c7_throttle_window_witness :
    (throttleStep 1 10 [] 2 [LogArg.str "a"] 0).2 = true ∧
      (throttleStep 1 10 (throttleStep 1 10 [] 2 [LogArg.str "a"] 0).1
        2 [LogArg.str "a"] 5).2 = false ∧
      (throttleStep 1 10 (throttleStep 1 10 [] 2 [LogArg.str "a"] 0).1
        2 [LogArg.str "a"] 10).2 = true :=
  ⟨(c7_throttle_window 10 0 5 10 2 2 [LogArg.str "a"] [LogArg.str "a"] rfl).1,
    ((c7_throttle_window 10 0 5 10 2 2 [LogArg.str "a"] [LogArg.str "a"] rfl).2.1
      (by decide)).1,
    (c7_throttle_window 10 0 5 10 2 2 [LogArg.str "a"] [LogArg.str "a"] rfl).2.2
      (by decide)⟩

/-- The character data of a joined list ends with the data of its last
element. -/
theorem joinWith_last (sep : String) :
    ∀ (l : List String) (a : String),
      ∃ z : List Char, (joinWith sep (l ++ [a])).data = z ++ a.data := by
  intro l
  induction l with
  | nil => intro a; exact ⟨[], by simp [joinWith]⟩
  | cons x l' ih =>
    intro a
    cases l' with
    | nil =>
      exact ⟨x.data ++ sep.data, by simp [joinWith]⟩
    | cons w l'' =>
      obtain ⟨z, hz⟩ := ih a
      refine ⟨x.data ++ sep.data ++ z, ?_⟩
      have hstep : joinWith sep ((x :: w :: l'') ++ [a]) =
          x ++ sep ++ joinWith sep (w :: l'' ++ [a]) := rfl
      rw [hstep, String.data_append, String.data_append, hz]
      simp

/-- The character data of a joined list with given first and last elements
decomposes around them in order. -/
theorem joinWith_head_last (sep : String) :
    ∀ (mids : List String) (P S : String),
      ∃ y : List Char,
        (joinWith sep (P :: mids ++ [S])).data = P.data ++ y ++ S.data := by
  intro mids
  induction mids with
  | nil =>
    intro P S
    exact ⟨sep.data, by simp [joinWith]⟩
  | cons x mids' ih =>
    intro P S
    obtain ⟨y, hy⟩ := ih x S
    refine ⟨sep.data ++ x.data ++ y, ?_⟩
    have hstep : joinWith sep (P :: (x :: mids') ++ [S]) =
        P ++ sep ++ joinWith sep (x :: mids' ++ [S]) := rfl
    rw [hstep, String.data_append, String.data_append, hy]
    simp

/-- `formatArgs` on a list of two or more arguments renders and joins. -/
theorem formatArgs_cons_of_ne_nil (a : LogArg) (l : List LogArg) (hl : l ≠ []) :
    formatArgs (a :: l) = joinWith " " ((a :: l).map renderArg) := by
  cases l with
  | nil => exact absurd rfl hl
  | cons b l' => cases a <;> rfl

/-- Splitting the last element off the parts list of `formatMessage`. -/
theorem append_pair_split {α : Type} (l1 l2 : List α) (c d : α) :
    l1 ++ l2 ++ [c, d] = (l1 ++ l2 ++ [c]) ++ [d] := by
  simp

/-- C4: with a chain whose stages all call their continuation, stages execute
in exactly registration order and the emission gate observes the cumulative
mutation of the shared context (the left fold of the stage transforms); in
particular a prefix-literal stage followed by a suffix-literal stage yields a
gate context whose args carry both literals in registration order, and every
emitted message contains the prefix literal before the suffix literal. -/
theorem c4_registration_order_mutation :
    (∀ (lg : Logger) (level : Nat) (args : List LogArg) (now : Nat),
      (∀ s ∈ lg.middleware, ∀ c, s.control c = Control.callNext) →
      (lg.logWithMiddleware level args now).executed =
          List.range lg.middleware.length ∧
        (lg.logWithMiddleware level args now).gateCtx =
          some (lg.middleware.foldl (fun c s => applyStage s c)
            (lg.createContext level args now))) ∧
    (∀ (lg : Logger) (P S : String) (level : Nat) (args : List LogArg) (now : Nat),
      (({ lg with middleware := [prefixMiddleware P, suffixMiddleware S] } :
          Logger).logWithMiddleware level args now).executed = [0, 1] ∧
      (∃ ctx, (({ lg with middleware := [prefixMiddleware P, suffixMiddleware S] } :
          Logger).logWithMiddleware level args now).gateCtx = some ctx ∧
        ctx.args = LogArg.str P :: args ++ [LogArg.str S]) ∧
      (∀ e ∈ (({ lg with middleware := [prefixMiddleware P, suffixMiddleware S] } :
          Logger).logWithMiddleware level args now).emissions,
        ∃ x y : List Char, e.message.data = x ++ P.data ++ y ++ S.data)) := by
  constructor
  · intro lg level args now hall
    rw [Logger.logWithMiddleware,
      runNext_all_callNext lg lg.middleware (lg.createContext level args now) hall]
    exact ⟨rfl, rfl⟩
  · intro lg P S level args now
    have hall : ∀ s ∈ ({ lg with
        middleware := [prefixMiddleware P, suffixMiddleware S] } :
          Logger).middleware, ∀ c, s.control c = Control.callNext := by
      intro s hs c
      simp only [List.mem_cons, List.mem_singleton, List.not_mem_nil] at hs
      rcases hs with h | h | h
      · rw [h]; rfl
      · rw [h]; rfl
      · exact absurd h (by simp)
    have hrun := runNext_all_callNext
      ({ lg with middleware := [prefixMiddleware P, suffixMiddleware S] } : Logger)
      [prefixMiddleware P, suffixMiddleware S]
      (({ lg with middleware := [prefixMiddleware P, suffixMiddleware S] } :
        Logger).createContext level args now) hall
    rw [Logger.logWithMiddleware]
    rw [hrun]
    refine ⟨rfl, ⟨_, rfl, rfl⟩, ?_⟩
    intro e he
    set lg' : Logger :=
      { lg with middleware := [prefixMiddleware P, suffixMiddleware S] } with hlg
    set foldCtx := ([prefixMiddleware P, suffixMiddleware S].foldl
      (fun c s => applyStage s c) (lg'.createContext level args now)) with hfc
    have hfm : foldCtx.formattedMessage = none := rfl
    have hargs : foldCtx.args = LogArg.str P :: (args ++ [LogArg.str S]) := rfl
    have hfa : formatArgs foldCtx.args =
        joinWith " " (P :: args.map renderArg ++ [S]) := by
      rw [hargs, formatArgs_cons_of_ne_nil _ _ (by simp)]
      simp [renderArg]
    obtain ⟨y, hy⟩ := joinWith_head_last " " (args.map renderArg) P S
    have hmsg : ∃ z : List Char,
        (lg'.formatMessage foldCtx).data = z ++ (formatArgs foldCtx.args).data := by
      simp only [Logger.formatMessage]
      rw [append_pair_split]
      exact joinWith_last " " _ _
    obtain ⟨z, hz⟩ := hmsg
    have hdecomp : ∃ x w : List Char,
        (lg'.formatMessage foldCtx).data = x ++ P.data ++ w ++ S.data := by
      refine ⟨z, y, ?_⟩
      rw [hz, hfa, hy]
      simp [List.append_assoc]
    simp only [Logger.output] at he
    by_cases hc : foldCtx.level ≥ lg'.logLevel ∧ foldCtx.level < LogLevel.SILENT
    · rw [if_pos hc] at he
      simp only [List.mem_singleton] at he
      rw [he]
      simpa [hfm] using hdecomp
    · rw [if_neg hc] at he
      simp at he

/-- Witness for C4: a fresh default logger runs its (empty) chain in order,
and a concrete run with prefix "P" and suffix "S" executes both stages in
registration order. -/
theorem c4_registration_order_mutation_witness :
    (demoLogger.logWithMiddleware LogLevel.INFO [] 0).executed =
        List.range demoLogger.middleware.length ∧
      (({ demoLogger with
          middleware := [prefixMiddleware "P", suffixMiddleware "S"] } :
            Logger).logWithMiddleware LogLevel.INFO [LogArg.str "hello"] 0).executed =
        [0, 1] :=
  ⟨(c4_registration_order_mutation.1 demoLogger LogLevel.INFO [] 0
      (by intro s hs; simp [demoLogger, Logger.ofOptions, emptyOptions] at hs)).1,
    (c4_registration_order_mutation.2 demoLogger "P" "S" LogLevel.INFO
      [LogArg.str "hello"] 0).1⟩

/-- `split` never produces an empty piece list. -/
theorem splitOnL_ne_nil (p0 : Char) (ps : List Char) :
    ∀ (s : List Char), splitOnL p0 ps s ≠ [] := by
  intro s
  cases s with
  | nil => simp [splitOnL]
  | cons c rest =>
    rw [splitOnL]
    split
    · simp
    · split <;> simp

/-- Fusion of `split(p).join(r)` into a single left-to-right replacement. -/
theorem joinPieces_splitOnL (p0 : Char) (ps r : List Char) :
    ∀ (n : Nat) (s : List Char), s.length ≤ n →
      joinPieces r (splitOnL p0 ps s) = replaceAll p0 ps r s := by
  intro n
  induction n with
  | zero =>
    intro s hs
    have hnil : s = [] := List.eq_nil_of_length_eq_zero (Nat.le_zero.mp hs)
    subst hnil
    simp [splitOnL, replaceAll, joinPieces]
  | succ n ih =>
    intro s hs
    cases s with
    | nil => simp [splitOnL, replaceAll, joinPieces]
    | cons c rest =>
      rw [splitOnL, replaceAll]
      by_cases hp : (p0 :: ps).isPrefixOf (c :: rest) = true
      · rw [if_pos hp, if_pos hp]
        obtain ⟨piece, pieces, hpp⟩ :=
          List.exists_cons_of_ne_nil (splitOnL_ne_nil p0 ps (rest.drop ps.length))
        rw [hpp]
        have h1 : joinPieces r ([] :: piece :: pieces) =
            r ++ joinPieces r (piece :: pieces) := by
          cases pieces <;> simp [joinPieces]
        rw [h1, ← hpp, ih (rest.drop ps.length)
          (by simp only [List.length_cons, List.length_drop] at hs ⊢ ; omega)]
      · rw [if_neg hp, if_neg hp]
        obtain ⟨piece, pieces, hpp⟩ :=
          List.exists_cons_of_ne_nil (splitOnL_ne_nil p0 ps rest)
        rw [hpp]
        have h2 : joinPieces r ((c :: piece) :: pieces) =
            c :: joinPieces r (piece :: pieces) := by
          cases pieces <;> simp [joinPieces]
        simp only []
        rw [h2, ← hpp, ih rest (by simp only [List.length_cons] at hs; omega)]

/-- A pattern occurs in `q ++ z` whenever it is the prefix block `q` itself. -/
theorem isPrefixOf_append_self (q z : List Char) :
    q.isPrefixOf (q ++ z) = true := by
  induction q with
  | nil => simp [List.isPrefixOf]
  | cons a as ih => simp [List.isPrefixOf, ih]

/-- The scan finds an occurrence placed anywhere in the middle of a string. -/
theorem occursB_append_self :
    ∀ (x q z : List Char), q ≠ [] → occursB q (x ++ q ++ z) = true := by
  intro x
  induction x with
  | nil =>
    intro q z hq
    cases q with
    | nil => exact absurd rfl hq
    | cons q0 qs =>
      have h1 : (q0 :: qs).isPrefixOf ((q0 :: qs) ++ z) = true :=
        isPrefixOf_append_self _ z
      simp only [List.cons_append] at h1
      simp [occursB, h1]
  | cons a x' ih =>
    intro q z hq
    have h3 : occursB q ((a :: x') ++ q ++ z) =
        (q.isPrefixOf ((a :: x') ++ q ++ z) || occursB q (x' ++ q ++ z)) := rfl
    rw [h3, ih q z hq]
    simp

/-- Occurrences of a pattern cannot start inside a block sharing no character
with the pattern's head: scanning past such a block changes nothing. -/
theorem occursB_skip (p0 : Char) (ps : List Char) :
    ∀ (rl t : List Char), (∀ a ∈ rl, p0 ≠ a) →
      occursB (p0 :: ps) (rl ++ t) = occursB (p0 :: ps) t := by
  intro rl
  induction rl with
  | nil => intro t _; rfl
  | cons x rl' ih =>
    intro t hd
    have hx : p0 ≠ x := hd x (List.mem_cons_self x rl')
    simp only [List.cons_append, occursB, List.isPrefixOf]
    have hbeq : (p0 == x) = false := by
      simp [beq_eq_false_iff_ne, hx]
    rw [hbeq]
    simp only [Bool.false_and, Bool.false_or]
    exact ih t (fun a ha => hd a (List.mem_cons_of_mem x ha))

/-- A prefix of the replaced string that avoids every character of the
replacement is already a prefix of the original string. -/
theorem isPrefixOf_replaceAll (p0 : Char) (ps r : List Char) :
    ∀ (n : Nat) (s q : List Char), s.length ≤ n →
      (∀ a ∈ q, a ∉ r) → r ≠ [] →
      q.isPrefixOf (replaceAll p0 ps r s) = true →
      q.isPrefixOf s = true := by
  intro n
  induction n with
  | zero =>
    intro s q hs _ _ hq
    have hnil : s = [] := List.eq_nil_of_length_eq_zero (Nat.le_zero.mp hs)
    subst hnil
    simpa [replaceAll] using hq
  | succ n ih =>
    intro s q hs hdisj hr hq
    cases s with
    | nil => simpa [replaceAll] using hq
    | cons c rest =>
      rw [replaceAll] at hq
      by_cases hp : (p0 :: ps).isPrefixOf (c :: rest) = true
      · rw [if_pos hp] at hq
        cases q with
        | nil => simp [List.isPrefixOf]
        | cons q0 qs =>
          obtain ⟨r0, rl, hrr⟩ := List.exists_cons_of_ne_nil hr
          rw [hrr, List.cons_append] at hq
          simp only [List.isPrefixOf, Bool.and_eq_true, beq_iff_eq] at hq
          exfalso
          exact hdisj q0 (List.mem_cons_self q0 qs) (by rw [hq.1, hrr]; exact List.mem_cons_self r0 rl)
      · rw [if_neg hp] at hq
        cases q with
        | nil => simp [List.isPrefixOf]
        | cons q0 qs =>
          simp only [List.isPrefixOf, Bool.and_eq_true, beq_iff_eq] at hq ⊢
          refine ⟨hq.1, ?_⟩
          exact ih rest qs (by simp only [List.length_cons] at hs; omega)
            (fun a ha => hdisj a (List.mem_cons_of_mem q0 ha)) hr hq.2

/-- After replacement of every occurrence by a block sharing no character
with the pattern, the pattern no longer occurs. -/
theorem occursB_replaceAll_eq_false (p0 : Char) (ps r : List Char) :
    ∀ (n : Nat) (s : List Char), s.length ≤ n →
      (∀ a ∈ p0 :: ps, a ∉ r) → r ≠ [] →
      occursB (p0 :: ps) (replaceAll p0 ps r s) = false := by
  intro n
  induction n with
  | zero =>
    intro s hs _ _
    have hnil : s = [] := List.eq_nil_of_length_eq_zero (Nat.le_zero.mp hs)
    subst hnil
    simp [replaceAll, occursB, List.isEmpty]
  | succ n ih =>
    intro s hs hdisj hr
    cases s with
    | nil => simp [replaceAll, occursB, List.isEmpty]
    | cons c rest =>
      rw [replaceAll]
      by_cases hp : (p0 :: ps).isPrefixOf (c :: rest) = true
      · rw [if_pos hp]
        rw [occursB_skip p0 ps r _ (fun a ha => by
          intro he
          exact hdisj p0 (List.mem_cons_self p0 ps) (he ▸ ha))]
        exact ih (rest.drop ps.length)
          (by simp only [List.length_cons, List.length_drop] at hs ⊢ ; omega) hdisj hr
      · rw [if_neg hp]
        simp only [occursB, Bool.or_eq_false_iff]
        constructor
        · by_contra hc
          rw [Bool.not_eq_false] at hc
          simp only [List.isPrefixOf, Bool.and_eq_true, beq_iff_eq] at hc
          have hps : ps.isPrefixOf rest = true :=
            isPrefixOf_replaceAll p0 ps r n rest ps
              (by simp only [List.length_cons] at hs; omega)
              (fun a ha => hdisj a (List.mem_cons_of_mem p0 ha)) hr hc.2
          exact hp (by simp [List.isPrefixOf, hc.1, hps])
        · exact ih rest (by simp only [List.length_cons] at hs; omega) hdisj hr

/-- Replacement of an occurring pattern places the replacement block
somewhere in the output. -/
theorem replaceAll_decomp (p0 : Char) (ps r : List Char) :
    ∀ (s : List Char), occursB (p0 :: ps) s = true →
      ∃ x z, replaceAll p0 ps r s = x ++ r ++ z := by
  intro s
  induction s with
  | nil => intro h; simp [occursB, List.isEmpty] at h
  | cons c rest ih =>
    intro h
    by_cases hp : (p0 :: ps).isPrefixOf (c :: rest) = true
    · exact ⟨[], replaceAll p0 ps r (rest.drop ps.length), by
        rw [replaceAll, if_pos hp]; simp⟩
    · have hrest : occursB (p0 :: ps) rest = true := by
        rw [occursB, Bool.or_eq_true] at h
        rcases h with h | h
        · exact absurd h hp
        · exact h
      obtain ⟨x, z, hxz⟩ := ih hrest
      exact ⟨c :: x, z, by rw [replaceAll, if_neg hp, hxz]; simp⟩

/-- A prefix of a list is a prefix of any extension of that list. -/
theorem isPrefixOf_extend :
    ∀ (q a b : List Char), q.isPrefixOf a = true → q.isPrefixOf (a ++ b) = true := by
  intro q
  induction q with
  | nil => intro a b _; simp [List.isPrefixOf]
  | cons q0 qs ih =>
    intro a b h
    cases a with
    | nil => simp [List.isPrefixOf] at h
    | cons a0 a' =>
      have h4 : (q0 == a0 && qs.isPrefixOf a') = true := h
      have h5 : q0 = a0 ∧ qs.isPrefixOf a' = true := by simpa using h4
      show (q0 == a0 && qs.isPrefixOf (a' ++ b)) = true
      simp [h5.1, ih a' b h5.2]

/-- A verified prefix followed by the corresponding drop reassembles the
list. -/
theorem isPrefixOf_append_drop :
    ∀ (ps rest : List Char), ps.isPrefixOf rest = true →
      ps ++ rest.drop ps.length = rest := by
  intro ps
  induction ps with
  | nil => intro rest _; simp
  | cons p ps' ih =>
    intro rest h
    cases rest with
    | nil => simp [List.isPrefixOf] at h
    | cons r0 rest' =>
      have h4 : (p == r0 && ps'.isPrefixOf rest') = true := h
      have h5 : p = r0 ∧ ps'.isPrefixOf rest' = true := by simpa using h4
      show p :: (ps' ++ rest'.drop ps'.length) = r0 :: rest'
      rw [ih rest' h5.2, h5.1]

/-- `replaceFirst` replaces exactly the first (leftmost) occurrence: the
input splits at an occurrence preceded by occurrence-free text, and the
output is that split with the pattern block swapped for the replacement and
the remainder untouched. -/
theorem replaceFirst_decomp (p0 : Char) (ps r : List Char) :
    ∀ (s : List Char), occursB (p0 :: ps) s = true →
      ∃ x z, s = x ++ (p0 :: ps) ++ z ∧
        occursB (p0 :: ps) x = false ∧
        replaceFirst p0 ps r s = x ++ r ++ z := by
  intro s
  induction s with
  | nil => intro h; simp [occursB, List.isEmpty] at h
  | cons c rest ih =>
    intro h
    by_cases hp : (p0 :: ps).isPrefixOf (c :: rest) = true
    · have h4 : (p0 == c && ps.isPrefixOf rest) = true := hp
      have h5 : p0 = c ∧ ps.isPrefixOf rest = true := by simpa using h4
      refine ⟨[], rest.drop ps.length, ?_, rfl, ?_⟩
      · simp only [List.nil_append, List.cons_append]
        rw [isPrefixOf_append_drop ps rest h5.2, h5.1]
      · simp only [replaceFirst]
        rw [if_pos hp]
        simp
    · have hrest : occursB (p0 :: ps) rest = true := by
        rw [occursB, Bool.or_eq_true] at h
        rcases h with h | h
        · exact absurd h hp
        · exact h
      obtain ⟨x, z, hs, hx, hrf⟩ := ih hrest
      refine ⟨c :: x, z, ?_, ?_, ?_⟩
      · rw [show (c :: x) ++ (p0 :: ps) ++ z = c :: (x ++ (p0 :: ps) ++ z) from by simp]
        rw [← hs]
      · show ((p0 :: ps).isPrefixOf (c :: x) || occursB (p0 :: ps) x) = false
        rw [hx, Bool.or_false]
        by_contra hcx
        rw [Bool.not_eq_false] at hcx
        have hext := isPrefixOf_extend (p0 :: ps) (c :: x) ((p0 :: ps) ++ z) hcx
        rw [← List.append_assoc] at hext
        apply hp
        rw [show (c :: rest) = ((c :: x) ++ (p0 :: ps)) ++ z from by rw [hs]; simp]
        exact hext
      · show replaceFirst p0 ps r (c :: rest) = (c :: x) ++ r ++ z
        simp only [replaceFirst]
        rw [if_neg hp, hrf]
        simp

/-- Counterexample to C9 as stated: a configured regular-expression pattern
matching "secret" without the global flag.  `result.replace(pattern,
'[REDACTED]')` (src/src/middleware.ts line 130) replaces only the first
match, so an argument string containing "secret" twice still contains the
literal "secret" in the output. -/
theorem c9_regex_counterexample :
    redactArg [RedactPattern.regex ('s', "ecret".data) false]
        (LogArg.str "secret secret") = LogArg.str "[REDACTED] secret" ∧
      occursB "secret".data "[REDACTED] secret".data = true := by
  constructor
  · decide
  · decide

/-- C9 (amended): `redactMiddleware` applies each configured pattern in
order to text-valued arguments only, leaving non-text arguments unchanged,
and the gate sees the redacted args.  A literal-substring pattern has every
occurrence replaced with the placeholder: with patterns `["secret"]`, every
argument string in which "secret" occurs ends up containing "[REDACTED]" and
not containing "secret".  A RegExp pattern is applied via `String.replace`:
with the global flag every match is replaced (same guarantee, for a body
sharing no character with the placeholder); without it only the first match
is replaced — the input splits as occurrence-free text, the first match, and
an untouched remainder — so later matches can survive in the output. -/
theorem c9_redact_amended :
    (∀ (lg : Logger) (level : Nat) (args : List LogArg) (now : Nat)
       (pats : List RedactPattern),
      lg.middleware = [redactMiddleware pats] →
      ∃ ctx, (lg.logWithMiddleware level args now).gateCtx = some ctx ∧
        ctx.args = args.map (redactArg pats)) ∧
    (∀ (pats : List RedactPattern) (n : Nat),
      redactArg pats (LogArg.other n) = LogArg.other n) ∧
    (∀ s : String, occursB "secret".data s.data = true →
      ∃ t : String, redactArg [secretPat] (LogArg.str s) = LogArg.str t ∧
        occursB REDACTED t.data = true ∧
        occursB "secret".data t.data = false) ∧
    (∀ (b0 : Char) (bs : List Char) (s : String),
      (∀ a ∈ b0 :: bs, a ∉ REDACTED) →
      occursB (b0 :: bs) s.data = true →
      ∃ t : String,
        redactArg [RedactPattern.regex (b0, bs) true] (LogArg.str s) =
            LogArg.str t ∧
          occursB REDACTED t.data = true ∧
          occursB (b0 :: bs) t.data = false) ∧
    (∀ (b0 : Char) (bs : List Char) (s : String),
      occursB (b0 :: bs) s.data = true →
      ∃ x z : List Char, s.data = x ++ (b0 :: bs) ++ z ∧
        occursB (b0 :: bs) x = false ∧
        redactArg [RedactPattern.regex (b0, bs) false] (LogArg.str s) =
          LogArg.str (String.mk (x ++ REDACTED ++ z))) := by
  refine ⟨?_, ?_, ?_, ?_, ?_⟩
  · intro lg level args now pats hmw
    rw [Logger.logWithMiddleware, hmw]
    have hall : ∀ s ∈ [redactMiddleware pats], ∀ c,
        s.control c = Control.callNext := by
      intro s hs c
      simp only [List.mem_singleton] at hs
      rw [hs]; rfl
    rw [runNext_all_callNext lg _ _ hall]
    exact ⟨_, rfl, rfl⟩
  · intro pats n; rfl
  · intro s hocc
    have hfuse : List.foldl applyPattern s.data [secretPat] =
        replaceAll 's' "ecret".data REDACTED s.data :=
      joinPieces_splitOnL 's' "ecret".data REDACTED s.data.length s.data le_rfl
    refine ⟨String.mk (List.foldl applyPattern s.data [secretPat]), rfl, ?_, ?_⟩
    · have hocc' : occursB ('s' :: "ecret".data) s.data = true := hocc
      obtain ⟨x, z, hxz⟩ :=
        replaceAll_decomp 's' "ecret".data REDACTED s.data hocc'
      show occursB REDACTED (List.foldl applyPattern s.data [secretPat]) = true
      rw [hfuse, hxz]
      exact occursB_append_self x REDACTED z (by decide)
    · show occursB ('s' :: "ecret".data)
        (List.foldl applyPattern s.data [secretPat]) = false
      rw [hfuse]
      exact occursB_replaceAll_eq_false 's' "ecret".data REDACTED
        s.data.length s.data le_rfl (by decide) (by decide)
  · intro b0 bs s hdisj hocc
    refine ⟨String.mk (replaceAll b0 bs REDACTED s.data), rfl, ?_, ?_⟩
    · obtain ⟨x, z, hxz⟩ := replaceAll_decomp b0 bs REDACTED s.data hocc
      show occursB REDACTED (replaceAll b0 bs REDACTED s.data) = true
      rw [hxz]
      exact occursB_append_self x REDACTED z (by decide)
    · show occursB (b0 :: bs) (replaceAll b0 bs REDACTED s.data) = false
      exact occursB_replaceAll_eq_false b0 bs REDACTED s.data.length s.data
        le_rfl hdisj (by decide)
  · intro b0 bs s hocc
    obtain ⟨x, z, hs, hx, hrf⟩ := replaceFirst_decomp b0 bs REDACTED s.data hocc
    refine ⟨x, z, hs, hx, ?_⟩
    show LogArg.str (String.mk (replaceFirst b0 bs REDACTED s.data)) =
      LogArg.str (String.mk (x ++ REDACTED ++ z))
    rw [hrf]

/-- Witness for the amended C9: the gate clause on a logger configured with
the "secret" literal; redacting "my secret" via the literal pattern;
replacing via the global regex /secret/g; and the first-match-only split for
the non-global regex /secret/ on "secret secret". -/
theorem c9_redact_amended_witness :
    (∃ ctx, ((demoLogger.use (redactMiddleware [secretPat])).logWithMiddleware
        LogLevel.INFO [LogArg.str "my secret"] 0).gateCtx = some ctx ∧
      ctx.args = [LogArg.str "my secret"].map (redactArg [secretPat])) ∧
      (∃ t : String, redactArg [secretPat] (LogArg.str "my secret") = LogArg.str t ∧
        occursB REDACTED t.data = true ∧
        occursB "secret".data t.data = false) ∧
      (∃ t : String,
        redactArg [RedactPattern.regex ('s', "ecret".data) true]
            (LogArg.str "my secret") = LogArg.str t ∧
          occursB REDACTED t.data = true ∧
          occursB ('s' :: "ecret".data) t.data = false) ∧
      (∃ x z : List Char, "secret secret".data = x ++ ('s' :: "ecret".data) ++ z ∧
        occursB ('s' :: "ecret".data) x = false ∧
        redactArg [RedactPattern.regex ('s', "ecret".data) false]
            (LogArg.str "secret secret") =
          LogArg.str (String.mk (x ++ REDACTED ++ z))) :=
  ⟨c9_redact_amended.1 (demoLogger.use (redactMiddleware [secretPat]))
      LogLevel.INFO [LogArg.str "my secret"] 0 [secretPat] rfl,
    c9_redact_amended.2.2.1 "my secret" (by decide),
    c9_redact_amended.2.2.2.1 's' "ecret".data "my secret" (by decide) (by decide),
    c9_redact_amended.2.2.2.2 's' "ecret".data "secret secret" (by decide)⟩
